import Mathlib

/-!
Verification development for the yalms Logseq client
(`pkg/logseq/client.go`, `pkg/logseq/utils.go`, `pkg/logseq/models.go`).

The Lean definitions below are a shallow embedding of the Go source:

* string scanning mirrors `extractLinks` / `extractBlockRefs`
  (regexes `\[\[([^\]]+)\]\]` and `\(\(([^)]+)\)\)` with TrimSpace,
  empty-match discard, first-seen deduplication);
* `strings.ReplaceAll`, `strings.Contains`, `strings.Split(s, "/")`
  are embedded as character-list functions;
* the remote Logseq store is modelled as an explicit state (`Store`)
  together with a call trace (`EState.calls`); the client methods
  `GetPage`, `CreatePage`, `UpdatePage`, `EnsureLinkedPages` are
  translated with explicit state passing, mirroring the Go control flow
  statement by statement;
* the raw-response layer (`Call` results) is modelled by a small JSON
  value type, used for `GetPage`'s null/empty-list/decode handling,
  `UpdateBlock`'s response-shape fallbacks, `InsertBlock`'s parse, and
  `Query`'s list-of-lists flattening.

All recursions are structural (scanners use an explicit fuel equal to the
input length, which is always sufficient because every step consumes at
least one character), so every definition evaluates by `rfl`/`decide`.
-/

namespace Yalms

/-! ## Character/string primitives (Go `strings` package and the regex scans) -/

/-- Whitespace test used by `strings.TrimSpace`.  The Go function trims
Unicode white space; the inputs relevant here only involve ASCII space
characters, which is what we model. -/
def isSpaceChar (c : Char) : Bool :=
  c = ' ' || c = '\t' || c = '\n' || c = '\r'

/-- Go `strings.TrimSpace` on a character list. -/
def trimChars (l : List Char) : List Char :=
  ((l.dropWhile isSpaceChar).reverse.dropWhile isSpaceChar).reverse

/-- One scanning pass of the regex `op op ([^cl]+) cl cl` (that is,
`\[\[([^\]]+)\]\]` for `op = '['`, `cl = ']'`, and the parenthesis variant),
returning the list of submatch bodies of all leftmost non-overlapping
matches, exactly as Go's `regexp.FindAllStringSubmatch` does: at each
position, a match needs two opening delimiters, a non-empty maximal run of
non-closing characters, and two closing delimiters; on failure the scan
advances one character.  `fuel` is an upper bound on the number of steps;
`scanDelim` supplies the input length, which suffices because every
recursive call consumes at least one character. -/
def scanDelimF (opc clc : Char) : Nat → List Char → List (List Char)
  | 0, _ => []
  | fuel+1, a :: b :: rest =>
      if a = opc ∧ b = opc then
        let body := rest.takeWhile (fun d => d ≠ clc)
        match rest.dropWhile (fun d => d ≠ clc) with
        | c1 :: c2 :: rest2 =>
            if (c1 = clc ∧ c2 = clc) ∧ body ≠ [] then
              body :: scanDelimF opc clc fuel rest2
            else
              scanDelimF opc clc fuel (b :: rest)
        | _ => scanDelimF opc clc fuel (b :: rest)
      else scanDelimF opc clc fuel (b :: rest)
  | _+1, _ => []

/-- All regex submatch bodies in `l` (see `scanDelimF`). -/
def scanDelim (opc clc : Char) (l : List Char) : List (List Char) :=
  scanDelimF opc clc l.length l

/-- First-seen-order deduplication, as done with the `unique` maps in
`extractLinks` / `extractBlockRefs` / `EnsureLinkedPages`. -/
def dedupAux (seen : List String) : List String → List String
  | [] => []
  | x :: xs => if x ∈ seen then dedupAux seen xs else x :: dedupAux (x :: seen) xs

/-- Deduplicate, keeping the first occurrence of each string. -/
def dedupStr (l : List String) : List String :=
  dedupAux [] l

/-- Function `extractLinks` (utils.go): all `[[...]]` bodies, trimmed, non-empty,
deduplicated in first-seen order. -/
def extractLinks (content : String) : List String :=
  dedupStr (((scanDelim '[' ']' content.data).map
    (fun b => String.mk (trimChars b))).filter (fun s => s ≠ ""))

/-- Function `extractBlockRefs` (utils.go): all `((...))` bodies, trimmed, non-empty,
deduplicated in first-seen order. -/
def extractBlockRefs (content : String) : List String :=
  dedupStr (((scanDelim '(' ')' content.data).map
    (fun b => String.mk (trimChars b))).filter (fun s => s ≠ ""))

/-- Go `strings.ReplaceAll` on character lists: leftmost non-overlapping
replacement of `pat` by `repl`.  (Go's behaviour for an empty pattern —
insertion at every rune boundary — is not modelled; every pattern used by
the client has the form `[[link]]`, which is never empty.) -/
def replaceListF (pat repl : List Char) : Nat → List Char → List Char
  | 0, l => l
  | _+1, [] => []
  | fuel+1, c :: rest =>
      if pat ≠ [] ∧ pat.isPrefixOf (c :: rest) then
        repl ++ replaceListF pat repl fuel ((c :: rest).drop pat.length)
      else
        c :: replaceListF pat repl fuel rest

/-- Go `strings.ReplaceAll s pat repl`. -/
def strReplaceAll (s pat repl : String) : String :=
  String.mk (replaceListF pat.data repl.data s.data.length s.data)

/-- Substring test on character lists (`strings.Contains`). -/
def containsList (sub : List Char) : List Char → Bool
  | [] => sub.isEmpty
  | c :: rest => sub.isPrefixOf (c :: rest) || containsList sub rest

/-- Go `strings.Contains s sub`. -/
def strContains (s sub : String) : Bool :=
  containsList sub.data s.data

/-- Go `strings.Split(s, "/")` on character lists (single-character separator,
which is the only way the client uses `Split`). -/
def splitSlash : List Char → List (List Char)
  | [] => [[]]
  | c :: rest =>
      if c = '/' then [] :: splitSlash rest
      else
        match splitSlash rest with
        | [] => [[c]]
        | g :: gs => (c :: g) :: gs

/-- Go `strings.Split(s, "/")`. -/
def splitSlashStr (s : String) : List String :=
  (splitSlash s.data).map (fun l => String.mk l)

/-! ## Data model (models.go) and the remote-store state

The remote Logseq store is modelled as a list of pages plus a counter `fresh`
used to mint identifiers for pages the remote creates (in reality the store
assigns UUIDs; the model only needs them distinct, non-empty and free of
`'/'`).  Two fault sets let theorems inject remote failures: a
`logseq.Editor.createPage` call for a name in `failCreate` fails, and a
`logseq.Editor.upsertBlockProperty` call for a uuid in `failProp` fails.
Every remote call made by the client is appended to the trace
`EState.calls`. -/

/-- A property value.  Go uses `map[string]any`; the client's link logic
only distinguishes string values from everything else, so scalar
alternatives suffice. -/
inductive Val where
  | str (s : String)
  | num (n : Int)
  | boolean (b : Bool)
deriving DecidableEq, Repr

/-- Property mapping.  Go's map iteration order is unspecified; the model
fixes the (irrelevant to the claims proved here) order as list order. -/
abbrev PropList := List (String × Val)

/-- A stored page (models.go `Page`, restricted to the fields the claims
concern: identifier, name, properties). -/
structure SPage where
  uuid : String
  name : String
  props : PropList
deriving DecidableEq, Repr

/-- One remote API call, for the trace. -/
inductive RCall where
  | getPage (arg : String)
  | createPage (name : String)
  | upsertProp (uuid key : String)
  | getBlock (uuid : String)
deriving DecidableEq, Repr

/-- The remote store. -/
structure Store where
  pages : List SPage
  fresh : Nat
  failCreate : List String
  failProp : List String
deriving DecidableEq, Repr

/-- Store plus remote-call trace. -/
structure EState where
  store : Store
  calls : List RCall
deriving DecidableEq, Repr

/-- Identifier minted for the `n`-th page the remote creates. -/
def mkUUID (n : Nat) : String :=
  String.mk (List.replicate (n + 1) 'u')

/-- Remote `logseq.Editor.getPage(nameOrUUID)`: first page matching by name
or by identifier (the store resolves either). -/
def lookupPage (st : Store) (arg : String) : Option SPage :=
  st.pages.find? (fun p => p.name == arg || p.uuid == arg)

/-- Append one call to the trace. -/
def logCall (st : EState) (c : RCall) : EState :=
  { st with calls := st.calls ++ [c] }

/-- Client `GetPage` (client.go:109).  In the store model the transport
never fails and the remote answers with the stored page or with
null/empty — so the `nil, nil` (absent) outcome is `none`.  (The raw
response handling of `GetPage` is modelled separately at the wire level,
see `GetPageW`.) -/
def GetPageM (arg : String) (st : EState) : Option SPage × EState :=
  (lookupPage st.store arg, logCall st (.getPage arg))

/-- Set key `k` to `v` in a property list (remote semantics of
`upsertBlockProperty`). -/
def setProp (props : PropList) (k : String) (v : Val) : PropList :=
  if props.any (fun kv => kv.1 == k) then
    props.map (fun kv => if kv.1 == k then (k, v) else kv)
  else props ++ [(k, v)]

/-- Remote `logseq.Editor.upsertBlockProperty(uuid, k, v)`: fails for uuids
in `failProp` (the injectable fault) or when no such page exists; otherwise
updates the page's property. -/
def callUpsertProp (uuid k : String) (v : Val) (st : EState) :
    Except Unit Unit × EState :=
  let st1 := logCall st (.upsertProp uuid k)
  if uuid ∈ st.store.failProp then (.error (), st1)
  else if (lookupPage st.store uuid).isSome then
    (.ok (), { st1 with store := { st1.store with
      pages := st1.store.pages.map (fun p =>
        if p.uuid == uuid then { p with props := setProp p.props k v } else p) } })
  else (.error (), st1)

/-- Remote `logseq.Editor.createPage(name, props)`: fails for names in
`failCreate`; otherwise appends a page with a fresh identifier.  The
modelled remote always returns a fully-populated page (the Go client's
defensive empty-UUID check therefore never fires in the model). -/
def callCreatePage (name : String) (props : PropList) (st : EState) :
    Except Unit SPage × EState :=
  let st1 := logCall st (.createPage name)
  if name ∈ st.store.failCreate then (.error (), st1)
  else
    let p : SPage := ⟨mkUUID st.store.fresh, name, props⟩
    (.ok p, { st1 with store := { st1.store with
      pages := st1.store.pages ++ [p],
      fresh := st1.store.fresh + 1 } })

/-- Client `CreatePage(name, nil, nil)` (client.go:132), the exact
specialization invoked by `EnsureLinkedPages` at client.go:428: with an
empty property map the existing page is returned unchanged when present,
otherwise one `createPage` call is issued; no property-update step runs.
`CreatePageM name []` is proved equal to this specialization in
`createPageM_nil`. -/
def createPageNil (name : String) (st : EState) : Except Unit SPage × EState :=
  match GetPageM name st with
  | (some existing, st1) => (.ok existing, st1)
  | (none, st1) => callCreatePage name [] st1

/-! ## The namespace walk and `EnsureLinkedPages` (client.go:372-480) -/

/-- The `currentPath` accumulation of the loop at client.go:403-408. -/
def joinPath (cur part : String) : String :=
  if cur = "" then part else cur ++ "/" ++ part

/-- The per-link loop body of `EnsureLinkedPages` (client.go:403-436):
walk the `/`-split segments left to right; for each accumulated prefix try
`GetPage`, and if absent `CreatePage(path, nil, nil)`; a creation failure
is logged and the walk continues; the result is the `finalUUID` variable —
the identifier obtained at the last segment, or `""` if none was. -/
def walkLoop (cur : String) : List String → EState → String × EState
  | [], st => ("", st)
  | part :: rest, st =>
      let path := joinPath cur part
      match GetPageM path st with
      | (some page, st1) =>
          if rest.isEmpty then (page.uuid, st1) else walkLoop path rest st1
      | (none, st1) =>
          match createPageNil path st1 with
          | (.ok created, st2) =>
              if rest.isEmpty then (created.uuid, st2) else walkLoop path rest st2
          | (.error _, st2) =>
              if rest.isEmpty then ("", st2) else walkLoop path rest st2

/-- The property rewrite of client.go:452-456: every string value
containing the literal `target` has it replaced by `repl`. -/
def rewriteProps (target repl : String) (props : PropList) : PropList :=
  props.map (fun kv =>
    match kv.2 with
    | Val.str s =>
        if strContains s target then (kv.1, Val.str (strReplaceAll s target repl))
        else kv
    | _ => kv)

/-- Processing of one deduplicated link (client.go:395-457): materialize
the namespace chain, then — only for links containing `"/"` and only when a
leaf identifier was obtained — replace `[[link]]` by `((finalUUID))` in the
content and in every string property value containing it. -/
def processLink (link : String) (cp : String × PropList) (st : EState) :
    (String × PropList) × EState :=
  let w := walkLoop "" (splitSlashStr link) st
  let finalUUID := w.1
  if strContains link "/" = true ∧ finalUUID ≠ "" then
    let target := "[[" ++ link ++ "]]"
    let repl := "((" ++ finalUUID ++ "))"
    ((strReplaceAll cp.1 target repl, rewriteProps target repl cp.2), w.2)
  else (cp, w.2)

/-- Fold of `processLink` over the deduplicated link list. -/
def processLinks (links : List String) (cp : String × PropList) (st : EState) :
    (String × PropList) × EState :=
  match links with
  | [] => (cp, st)
  | l :: ls =>
      let r := processLink l cp st
      processLinks ls r.1 r.2

/-- Named links extracted from every string-typed property value, in
property order (client.go:377-381). -/
def propStringLinks : PropList → List String
  | [] => []
  | (_, Val.str s) :: rest => extractLinks s ++ propStringLinks rest
  | _ :: rest => propStringLinks rest

/-- Block references extracted from every string-typed property value
(client.go:463-468). -/
def propStringRefs : PropList → List String
  | [] => []
  | (_, Val.str s) :: rest => extractBlockRefs s ++ propStringRefs rest
  | _ :: rest => propStringRefs rest

/-- The advisory reference check of client.go:470-477: one `GetBlock` call
per reference; a missing block is only logged, so the check affects the
trace and nothing else. -/
def checkRefs (refs : List String) (st : EState) : EState :=
  refs.foldl (fun s u => logCall s (.getBlock u)) st

/-- Client `EnsureLinkedPages(content, properties)` (client.go:372-480).
Returns the rewritten content together with the rewritten property
mapping (Go mutates the map in place). -/
def EnsureLinkedPagesM (content : String) (props : PropList) (st : EState) :
    (String × PropList) × EState :=
  let linkList := dedupStr (extractLinks content ++ propStringLinks props)
  let r := processLinks linkList (content, props) st
  let refs := extractBlockRefs r.1.1 ++ propStringRefs r.1.2
  (r.1, checkRefs refs r.2)

/-! ## `UpdatePage` and `CreatePage` (client.go:132-217) -/

/-- The property loop of `UpdatePage` (client.go:207-212): per-key
`upsertBlockProperty` calls; the first failure aborts with that error. -/
def upsertLoop (uuid : String) : PropList → EState → Except Unit Unit × EState
  | [], st => (.ok (), st)
  | (k, v) :: rest, st =>
      match callUpsertProp uuid k v st with
      | (.ok _, st1) => upsertLoop uuid rest st1
      | (.error e, st1) => (.error e, st1)

/-- Client `UpdatePage(uuid, properties)` (client.go:201-217): first
`EnsureLinkedPages("", properties)` (mutating the map), then per-key
upserts, then a re-fetch of the page. -/
def UpdatePageM (uuid : String) (props : PropList) (st : EState) :
    Except Unit (Option SPage) × EState :=
  let e := EnsureLinkedPagesM "" props st
  match upsertLoop uuid e.1.2 e.2 with
  | (.ok _, st1) =>
      let g := GetPageM uuid st1
      (.ok g.1, g.2)
  | (.error er, st1) => (.error er, st1)

/-- Client `CreatePage(name, properties, nil)` (client.go:132-199).
Faithful points to note: in the already-exists branch with non-empty
properties (client.go:141-143) the result of `UpdatePage` is DISCARDED and
the page is re-fetched; in the freshly-created branch (client.go:186-195)
the `UpdatePage` result is likewise discarded and the re-fetch falls back
to the creation echo. -/
def CreatePageM (name : String) (props : PropList) (st : EState) :
    Except Unit (Option SPage) × EState :=
  match GetPageM name st with
  | (some existing, st1) =>
      if props = [] then (.ok (some existing), st1)
      else
        let u := UpdatePageM existing.uuid props st1
        let g := GetPageM existing.uuid u.2
        (.ok g.1, g.2)
  | (none, st1) =>
      match callCreatePage name props st1 with
      | (.error e, st2) => (.error e, st2)
      | (.ok page, st2) =>
          if props = [] then (.ok (some page), st2)
          else
            let u := UpdatePageM page.uuid props st2
            match GetPageM page.uuid u.2 with
            | (some updated, st3) => (.ok (some updated), st3)
            | (none, st3) => (.ok (some page), st3)

/-! ## Wire level: raw `Call` responses (client.go:41-81) and their decoding

`Call` returns either an error (transport failure, HTTP error status, or an
embedded business `error` field) or the raw body.  Bodies are modelled as
JSON values; the byte-level comparisons `string(resp) == "null"` /
`"[]"` correspond to the values `jnull` / `jarr []`. -/

/-- A decoded JSON value. -/
inductive Json where
  | jnull
  | jbool (b : Bool)
  | jnum (n : Int)
  | jstr (s : String)
  | jarr (elems : List Json)
  | jobj (fields : List (String × Json))

/-- The error taxonomy of `Call`: transport failure, non-2xx status,
business error field. -/
inductive CallErr where
  | transport
  | httpErr (status : Nat)
  | business (msg : String)
deriving DecidableEq, Repr

/-- The `string(resp) != "null" && string(resp) != "[]"` guard of
client.go:117. -/
def isNullOrEmptyList : Json → Bool
  | .jnull => true
  | .jarr [] => true
  | _ => false

/-- Model of `json.Unmarshal` of one string-typed struct field: an absent field
leaves the zero value `""`; a present non-string field is a decode
error. -/
def jsonStrField (fields : List (String × Json)) (key : String) : Option String :=
  match fields.find? (fun kv => kv.1 == key) with
  | none => some ""
  | some (_, .jstr s) => some s
  | some _ => none

/-- Model of `json.Unmarshal(resp, &page)` (models.go `Page.UnmarshalJSON`):
succeeds exactly on JSON objects (and on `null`, as a no-op); a non-object
body or a wrongly-typed field is a decode error.  Only the fields the
claims concern are modelled; the captured extra properties are not. -/
def decodePage : Json → Option SPage
  | .jnull => some ⟨"", "", []⟩
  | .jobj fields =>
      match jsonStrField fields "uuid", jsonStrField fields "name" with
      | some u, some n => some ⟨u, n, []⟩
      | _, _ => none
  | _ => none

/-- Client `GetPage` at the wire level (client.go:109-125), as a function
of the `Call` result: an error propagates; a `null` or `[]` body is
absent; a body that decodes as a page is returned; a body that decodes as
nothing is ALSO absent (the decode failure is swallowed by the
`if err := json.Unmarshal(...); err == nil` pattern). -/
def GetPageW : Except CallErr Json → Except CallErr (Option SPage)
  | .error e => .error e
  | .ok body =>
      if isNullOrEmptyList body then .ok none
      else
        match decodePage body with
        | some p => .ok (some p)
        | none => .ok none

/-- A block as decoded from a response (models.go `Block`, restricted to
the fields the claims concern). -/
structure SBlock where
  uuid : String
  content : String
deriving DecidableEq, Repr

/-- Model of `json.Unmarshal(resp, &block)`: succeeds exactly on JSON objects (and
on `null` as a no-op, leaving zero values). -/
def decodeBlock : Json → Option SBlock
  | .jnull => some ⟨"", ""⟩
  | .jobj fields =>
      match jsonStrField fields "uuid", jsonStrField fields "content" with
      | some u, some c => some ⟨u, c⟩
      | _, _ => none
  | _ => none

/-- Model of `json.Unmarshal(resp, &respUUID)` into a `string`: succeeds exactly on
a JSON string. -/
def decodeStr : Json → Option String
  | .jstr s => some s
  | _ => none

/-- The response handling of `InsertBlock` (client.go:495-498) — and
equally of `AppendBlockInPage` (client.go:604-607): the body must decode
as a block, otherwise the call fails with a parse error.  There is no
bare-identifier or re-resolve fallback here. -/
def insertBlockParse (resp : Json) : Except Unit SBlock :=
  match decodeBlock resp with
  | some b => .ok b
  | none => .error ()

/-- The response handling of `UpdateBlock` (client.go:571-584): (1) a body
decoding as a block with a non-empty identifier is returned directly;
(2) a body decoding as a non-empty string is treated as a bare identifier
and the block is re-fetched by it; (3) anything else falls back to
re-fetching by the identifier the caller already knows.  `fetch` stands
for `GetBlock`. -/
def UpdateBlockRespW (uuid : String) (resp : Json)
    (fetch : String → Except CallErr (Option SBlock)) :
    Except CallErr (Option SBlock) :=
  let fallback :=
    match decodeStr resp with
    | some s => if s ≠ "" then fetch s else fetch uuid
    | none => fetch uuid
  match decodeBlock resp with
  | some b => if b.uuid ≠ "" then .ok (some b) else fallback
  | none => fallback

/-- The result normalization of `Query` (client.go:631-644): if the
decoded result is a list whose first element is a list, flatten to the
heads of the inner lists (dropping non-list and empty-list items);
otherwise return the decoded result unchanged. -/
def normalizeQuery (results : Json) : Json :=
  match results with
  | .jarr (first :: rest) =>
      match first with
      | .jarr _ =>
          .jarr ((first :: rest).filterMap (fun item =>
            match item with
            | .jarr (x :: _) => some x
            | _ => none))
      | _ => results
  | _ => results

/-- The shape test of client.go:632-634 (`list[0]` is itself a list). -/
def headIsList : Json → Bool
  | .jarr (.jarr _ :: _) => true
  | _ => false

/-! ## Concrete states used by theorems and witnesses -/

/-- A pristine remote store: no pages, no injected faults. -/
def initSt : EState := ⟨⟨[], 0, [], []⟩, []⟩

/-- A store holding one page `"P"` (uuid `"u"`) whose property upserts are
made to fail — the scenario for upserting an existing page where applying
the properties fails. -/
def propFailSt : EState := ⟨⟨[⟨"u", "P", []⟩], 1, [], ["u"]⟩, []⟩

/-- An empty store where creating the page `"A/B"` fails remotely. -/
def abFailSt : EState := ⟨⟨[], 0, ["A/B"], []⟩, []⟩

/-- An empty store where creating the page `"X/Y"` fails remotely. -/
def xyFailSt : EState := ⟨⟨[], 0, ["X/Y"], []⟩, []⟩

/-- An empty store where creating the page `"Q"` fails remotely. -/
def qFailSt : EState := ⟨⟨[], 0, ["Q"], []⟩, []⟩

/-- A concrete `GetBlock` stand-in for witnesses: fetching identifier `s`
yields a block with that identifier. -/
def constFetch : String → Except CallErr (Option SBlock) :=
  fun s => .ok (some ⟨s, "fetched"⟩)

/-- Is a property value string-typed?  (The Go type switch
`v.(string)`.) -/
def isStrVal : Val → Bool
  | .str _ => true
  | _ => false

/-- The names passed to `createPage` calls, in order, within a trace. -/
def createCallsOf : List RCall → List String :=
  List.filterMap (fun c =>
    match c with
    | .createPage n => some n
    | _ => none)

/-- The accumulated `currentPath` values visited by the namespace walk:
for segments `[p₁, …, pₙ]` starting from `cur`, the `n` ancestor paths in
ascending depth order. -/
def ancestorPaths (cur : String) : List String → List String
  | [] => []
  | p :: ps => joinPath cur p :: ancestorPaths (joinPath cur p) ps

/-- The pages the modelled remote creates for the names `qs`, starting at
counter `n`. -/
def freshPages (n : Nat) : List String → List SPage
  | [] => []
  | q :: qs => ⟨mkUUID n, q, []⟩ :: freshPages (n + 1) qs

/-- Does a property value avoid containing `target` (so the replacement
step skips it)?  Non-string values trivially do. -/
def noTargetVal (target : String) : Val → Bool
  | .str s => !(strContains s target)
  | _ => true

/-- State after materializing `"A/B"` on the pristine store: `"A"` and
`"A/B"` created, in that order. -/
def stAB : EState :=
  ⟨⟨[⟨"u", "A", []⟩, ⟨"uu", "A/B", []⟩], 2, [], []⟩,
   [.getPage "A", .getPage "A", .createPage "A",
    .getPage "A/B", .getPage "A/B", .createPage "A/B"]⟩

/-- State after additionally materializing `"C"`. -/
def stABC : EState :=
  ⟨⟨[⟨"u", "A", []⟩, ⟨"uu", "A/B", []⟩, ⟨"uuu", "C", []⟩], 3, [], []⟩,
   [.getPage "A", .getPage "A", .createPage "A",
    .getPage "A/B", .getPage "A/B", .createPage "A/B",
    .getPage "C", .getPage "C", .createPage "C"]⟩

/-- The state after one walk step that found `path` absent and created it:
the traced calls are the walk's `getPage`, `CreatePage`'s own `getPage`,
and the remote `createPage`. -/
def afterCreate (path : String) (st : EState) : EState :=
  ⟨⟨st.store.pages ++ [⟨mkUUID st.store.fresh, path, []⟩],
    st.store.fresh + 1, st.store.failCreate, st.store.failProp⟩,
   st.calls ++ [.getPage path] ++ [.getPage path] ++ [.createPage path]⟩

end Yalms

namespace Yalms

/-! ## Claim theorems -/

/-- C6: `GetPage` performs one lookup call and returns absent — a nil page
with nil error — when the remote store reports no match (`null` or `[]`
body), which is distinct both from a successful page result and from a
transport/HTTP/business error; `Call` errors are propagated as errors,
never turned into absent. -/
theorem C6_getPage_absent_vs_error :
    GetPageW (.ok .jnull) = .ok none ∧
    GetPageW (.ok (.jarr [])) = .ok none ∧
    (∀ e : CallErr, GetPageW (.error e) = .error e) ∧
    GetPageW (.ok (.jobj [("uuid", .jstr "u1"), ("name", .jstr "P")])) =
      .ok (some ⟨"u1", "P", []⟩) :=
  ⟨rfl, rfl, fun _ => rfl, rfl⟩

/-- Witness for C6 at the concrete error `CallErr.transport`. -/
theorem C6_getPage_absent_vs_error_witness :
    GetPageW (.error .transport) = .error .transport :=
  C6_getPage_absent_vs_error.2.2.1 .transport

/-- C10 (implicit): a 2xx response whose body is neither `null` nor `[]`
but also fails to decode as a page makes `GetPage` return absent (nil
page, nil error) rather than a decode error — at this interface a
malformed successful response is indistinguishable from not-found. -/
theorem C10_getPage_malformed_is_absent (j : Json)
    (h1 : isNullOrEmptyList j = false) (h2 : decodePage j = none) :
    GetPageW (.ok j) = .ok none := by
  simp [GetPageW, h1, h2]

/-- Witness for C10: the body `"oops"` (a JSON string) is neither null nor
an empty list, fails to decode as a page, and yields absent. -/
theorem C10_getPage_malformed_is_absent_witness :
    isNullOrEmptyList (.jstr "oops") = false ∧
    decodePage (.jstr "oops") = none ∧
    GetPageW (.ok (.jstr "oops")) = .ok none :=
  ⟨rfl, rfl, C10_getPage_malformed_is_absent (.jstr "oops") rfl rfl⟩

/-- Flattening a list of singleton lists recovers the inner elements. -/
theorem filterMap_singleton_heads (xs : List Json) :
    (xs.map (fun x => Json.jarr [x])).filterMap (fun item =>
      match item with
      | Json.jarr (x :: _) => some x
      | _ => none) = xs := by
  induction xs with
  | nil => rfl
  | cons x r ih => simp [ih]

/-- C7: `Query` normalization — a decoded result that is a list of
single-element lists is flattened to the list of the inner elements, and a
decoded result that is not a list of lists (its first element is not a
list, or it is not a non-empty list at all) is returned unchanged. -/
theorem C7_query_normalization :
    (∀ xs : List Json,
      normalizeQuery (.jarr (xs.map (fun x => .jarr [x]))) = .jarr xs) ∧
    (∀ j : Json, headIsList j = false → normalizeQuery j = j) := by
  constructor
  · intro xs
    cases xs with
    | nil => rfl
    | cons x rest =>
        simp only [normalizeQuery, List.map_cons]
        exact congrArg Json.jarr (filterMap_singleton_heads (x :: rest))
  · intro j h
    cases j with
    | jarr l =>
        cases l with
        | nil => rfl
        | cons first rest =>
            cases first <;> first | rfl | (exfalso; simp [headIsList] at h)
    | _ => rfl

/-- Witness for C7 at the spec's concrete shapes
`[[{a:1}],[{a:2}]]` (flattened) and `[{a:1}]` (unchanged), with the inner
objects `{a:i}` rendered as JSON objects. -/
theorem C7_query_normalization_witness :
    normalizeQuery (.jarr [.jarr [.jobj [("a", .jnum 1)]],
                           .jarr [.jobj [("a", .jnum 2)]]]) =
      .jarr [.jobj [("a", .jnum 1)], .jobj [("a", .jnum 2)]] ∧
    normalizeQuery (.jarr [.jobj [("a", .jnum 1)]]) =
      .jarr [.jobj [("a", .jnum 1)]] :=
  ⟨C7_query_normalization.1 [.jobj [("a", .jnum 1)], .jobj [("a", .jnum 2)]],
   C7_query_normalization.2 (.jarr [.jobj [("a", .jnum 1)]]) rfl⟩

/-- C4 counterexample: the claim says EVERY public write operation
(including insert block) tolerates a bare-identifier-string response; but
`InsertBlock`'s response handling (client.go:495-498) fails with a parse
error on the bare identifier `"b1"` instead of tolerating it. -/
theorem C4_counterexample :
    insertBlockParse (.jstr "b1") = .error () :=
  rfl

/-- C4 (amended): only `UpdateBlock` implements the three-encoding
tolerance — (a) a body decoding as a block with non-empty identifier is
returned as is, (b) a non-empty bare identifier string triggers a re-fetch
by that identifier, (c) a body matching neither triggers a re-fetch by the
identifier the caller already knows; `InsertBlock` (and
`AppendBlockInPage`) instead fail with a parse error whenever the body
does not decode as a block. -/
theorem C4_amended_response_tolerance :
    (∀ (uuid u c : String) (fetch : String → Except CallErr (Option SBlock)),
      u ≠ "" →
      UpdateBlockRespW uuid (.jobj [("uuid", .jstr u), ("content", .jstr c)]) fetch =
        .ok (some ⟨u, c⟩)) ∧
    (∀ (uuid s : String) (fetch : String → Except CallErr (Option SBlock)),
      s ≠ "" → UpdateBlockRespW uuid (.jstr s) fetch = fetch s) ∧
    (∀ (uuid : String) (j : Json) (fetch : String → Except CallErr (Option SBlock)),
      (∀ b, decodeBlock j = some b → b.uuid = "") →
      (∀ s, decodeStr j = some s → s = "") →
      UpdateBlockRespW uuid j fetch = fetch uuid) ∧
    (∀ j : Json, decodeBlock j = none → insertBlockParse j = .error ()) := by
  refine ⟨?_, ?_, ?_, ?_⟩
  · intro uuid u c fetch hu
    simp [UpdateBlockRespW, decodeBlock, jsonStrField, decodeStr, hu]
  · intro uuid s fetch hs
    simp [UpdateBlockRespW, decodeBlock, decodeStr, hs]
  · intro uuid j fetch hb hs
    unfold UpdateBlockRespW
    cases h : decodeBlock j with
    | some b =>
        have hbu : b.uuid = "" := hb b h
        simp only [h, hbu, ne_eq, not_true_eq_false, if_false, reduceIte]
        cases h2 : decodeStr j with
        | some s =>
            have : s = "" := hs s h2
            simp [h2, this]
        | none => simp [h2]
    | none =>
        simp only [h]
        cases h2 : decodeStr j with
        | some s =>
            have : s = "" := hs s h2
            simp [h2, this]
        | none => simp [h2]
  · intro j h
    simp [insertBlockParse, h]

/-- Witness for C4 (amended), instantiating all four cases with concrete
responses and the concrete fetcher `constFetch`. -/
theorem C4_amended_response_tolerance_witness :
    UpdateBlockRespW "k" (.jobj [("uuid", .jstr "u9"), ("content", .jstr "c9")])
        constFetch = .ok (some ⟨"u9", "c9"⟩) ∧
    UpdateBlockRespW "k" (.jstr "u7") constFetch = constFetch "u7" ∧
    UpdateBlockRespW "k" (.jarr [.jnum 1]) constFetch = constFetch "k" ∧
    insertBlockParse (.jarr []) = .error () :=
  ⟨C4_amended_response_tolerance.1 "k" "u9" "c9" constFetch (by decide),
   C4_amended_response_tolerance.2.1 "k" "u7" constFetch (by decide),
   C4_amended_response_tolerance.2.2.1 "k" (.jarr [.jnum 1]) constFetch
     (fun b h => nomatch h) (fun s h => nomatch h),
   C4_amended_response_tolerance.2.2.2 (.jarr []) rfl⟩

/-- C5 counterexample: the claim says a failure applying properties during
an upsert of an already-existing entity is surfaced to the caller as an
error; but on the store `propFailSt` — page `"P"` exists and its property
upserts fail — `CreatePage("P", {k: "v"})` returns the re-resolved page
with NO error, even though the trace shows the property upsert was
attempted (and failed, leaving the property unapplied): client.go:142
discards the result of `UpdatePage`. -/
theorem C5_counterexample :
    (CreatePageM "P" [("k", Val.str "v")] propFailSt).1 =
      .ok (some ⟨"u", "P", []⟩) ∧
    (CreatePageM "P" [("k", Val.str "v")] propFailSt).2.calls =
      [.getPage "P", .upsertProp "u" "k", .getPage "u"] :=
  ⟨rfl, rfl⟩

/-- C5 (amended): besides the two named non-fatal cases, a failure applying
properties during an upsert of an already-existing entity is ALSO
non-fatal — `CreatePage` discards the property-update error and returns
the re-resolved (unchanged) entity with no error; a failure of the remote
create call itself still propagates to the caller. -/
theorem C5_amended_error_propagation :
    (∀ (st : EState) (name : String),
      lookupPage st.store name = none →
      name ∈ st.store.failCreate →
      (CreatePageM name [] st).1 = .error ()) ∧
    (CreatePageM "P" [("k", Val.str "v")] propFailSt).1 =
      .ok (some ⟨"u", "P", []⟩) := by
  constructor
  · intro st name h1 h2
    simp [CreatePageM, GetPageM, h1, callCreatePage, logCall, h2]
  · rfl

/-- Witness for C5 (amended): on `qFailSt` the page `"Q"` is absent and
its creation fails, and `CreatePage("Q", ∅)` surfaces the error. -/
theorem C5_amended_error_propagation_witness :
    lookupPage qFailSt.store "Q" = none ∧
    "Q" ∈ qFailSt.store.failCreate ∧
    (CreatePageM "Q" [] qFailSt).1 = .error () :=
  ⟨rfl, by decide,
   C5_amended_error_propagation.1 qFailSt "Q" rfl (by decide)⟩

/-- C9: the textual rewrite of a hierarchical link happens only when the
namespace walk actually produced a non-empty leaf identifier; whenever the
walk yields `""` (materialization failed at the leaf), the literal
bracketed link is left untouched in the content and in every property
value. -/
theorem C9_no_rewrite_without_leaf (content : String) (props : PropList)
    (link : String) (st : EState)
    (h : (walkLoop "" (splitSlashStr link) st).1 = "") :
    (processLink link (content, props) st).1 = (content, props) := by
  simp [processLink, h]

/-- Witness for C9: on `xyFailSt` materializing `"X/Y"` fails at the leaf
(`"X"` is created, `"X/Y"` fails), the walk yields `""`, and the literal
`[[X/Y]]` survives in both the content and the string property value. -/
theorem C9_no_rewrite_without_leaf_witness :
    (walkLoop "" (splitSlashStr "X/Y") xyFailSt).1 = "" ∧
    (processLink "X/Y" ("see [[X/Y]]", [("p", Val.str "go [[X/Y]]")]) xyFailSt).1 =
      ("see [[X/Y]]", [("p", Val.str "go [[X/Y]]")]) :=
  ⟨rfl,
   C9_no_rewrite_without_leaf "see [[X/Y]]" [("p", Val.str "go [[X/Y]]")]
     "X/Y" xyFailSt rfl⟩

/-- No link is extracted from an all-non-string property list. -/
theorem propStringLinks_of_nonstr (props : PropList)
    (h : ∀ kv ∈ props, isStrVal kv.2 = false) :
    propStringLinks props = [] := by
  induction props with
  | nil => rfl
  | cons kv rest ih =>
      obtain ⟨k, v⟩ := kv
      cases v with
      | str s => exact absurd (h (k, .str s) (List.mem_cons_self _ _)) (by simp [isStrVal])
      | num n => exact ih (fun kv hkv => h kv (List.mem_cons_of_mem _ hkv))
      | boolean b => exact ih (fun kv hkv => h kv (List.mem_cons_of_mem _ hkv))

/-- Replacement via `rewriteProps` leaves an all-non-string property list unchanged. -/
theorem rewriteProps_of_nonstr (target repl : String) (props : PropList)
    (h : ∀ kv ∈ props, isStrVal kv.2 = false) :
    rewriteProps target repl props = props := by
  induction props with
  | nil => rfl
  | cons kv rest ih =>
      obtain ⟨k, v⟩ := kv
      have hrest := ih (fun kv hkv => h kv (List.mem_cons_of_mem _ hkv))
      cases v with
      | str s => exact absurd (h (k, .str s) (List.mem_cons_self _ _)) (by simp [isStrVal])
      | num n => simpa [rewriteProps] using hrest
      | boolean b => simpa [rewriteProps] using hrest

/-- Processing one link leaves an all-non-string property list unchanged. -/
theorem processLink_props_of_nonstr (link content : String) (props : PropList)
    (st : EState) (h : ∀ kv ∈ props, isStrVal kv.2 = false) :
    (processLink link (content, props) st).1.2 = props := by
  simp only [processLink]
  split
  · exact rewriteProps_of_nonstr _ _ props h
  · rfl

/-- Processing all links leaves an all-non-string property list unchanged. -/
theorem processLinks_props_of_nonstr (links : List String) (content : String)
    (props : PropList) (st : EState)
    (h : ∀ kv ∈ props, isStrVal kv.2 = false) :
    (processLinks links (content, props) st).1.2 = props := by
  induction links generalizing content st with
  | nil => rfl
  | cons l ls ih =>
      have h2 := processLink_props_of_nonstr l content props st h
      have hpair : (processLink l (content, props) st).1 =
          ((processLink l (content, props) st).1.1, props) :=
        Prod.ext_iff.mpr ⟨rfl, h2⟩
      show (processLinks ls (processLink l (content, props) st).1
        (processLink l (content, props) st).2).1.2 = props
      rw [hpair]
      exact ih (processLink l (content, props) st).1.1
        (processLink l (content, props) st).2

/-- C8: on a property mapping whose values are all non-string,
`EnsureLinkedPages` leaves every property value byte-for-byte unchanged —
link extraction and replacement touch only string-typed values. -/
theorem C8_nonstring_props_untouched (content : String) (props : PropList)
    (st : EState) (h : ∀ kv ∈ props, isStrVal kv.2 = false) :
    (EnsureLinkedPagesM content props st).1.2 = props := by
  simp only [EnsureLinkedPagesM]
  exact processLinks_props_of_nonstr _ content props st h

/-- Witness for C8: a numeric and a boolean property survive a
synchronization that does rewrite the content (`[[A/B]]` becomes a direct
reference). -/
theorem C8_nonstring_props_untouched_witness :
    (∀ kv ∈ ([("n", Val.num 3), ("b", Val.boolean true)] : PropList),
      isStrVal kv.2 = false) ∧
    (EnsureLinkedPagesM "x [[A/B]] y" [("n", Val.num 3), ("b", Val.boolean true)]
      initSt).1.2 = [("n", Val.num 3), ("b", Val.boolean true)] :=
  ⟨by decide,
   C8_nonstring_props_untouched "x [[A/B]] y"
     [("n", Val.num 3), ("b", Val.boolean true)] initSt (by decide)⟩

/-- If no element of `l₁` satisfies `p`, searching the concatenation
searches `l₂`. -/
theorem find?_append_of_none {α : Type} (p : α → Bool) (l₁ l₂ : List α)
    (h : l₁.find? p = none) : (l₁ ++ l₂).find? p = l₂.find? p := by
  induction l₁ with
  | nil => rfl
  | cons a t ih =>
      cases hpa : p a with
      | true =>
          rw [List.find?_cons_of_pos _ hpa] at h
          exact absurd h (by simp)
      | false =>
          have hpa' : ¬ p a = true := by simp [hpa]
          rw [List.find?_cons_of_neg _ hpa'] at h
          rw [List.cons_append, List.find?_cons_of_neg _ hpa']
          exact ih h

/-- Tracing a call with `logCall` does not change the store. -/
theorem logCall_store (st : EState) (c : RCall) :
    (logCall st c).store = st.store := rfl

/-- Consistency of the specialized `createPageNil` with the general
`CreatePageM` at an empty property mapping: they are the same Go code
path. -/
theorem createPageM_nil (name : String) (st : EState) :
    CreatePageM name [] st =
      ((createPageNil name st).1.map Option.some, (createPageNil name st).2) := by
  unfold CreatePageM createPageNil GetPageM
  cases h : lookupPage st.store name with
  | some p => simp [h, Except.map]
  | none =>
      unfold callCreatePage
      by_cases hm : name ∈ st.store.failCreate
      · simp [h, hm, Except.map, logCall]
      · simp [h, hm, Except.map, logCall]

/-- Trace filtering `createCallsOf` distributes over concatenation. -/
theorem createCallsOf_append (l₁ l₂ : List RCall) :
    createCallsOf (l₁ ++ l₂) = createCallsOf l₁ ++ createCallsOf l₂ :=
  List.filterMap_append l₁ l₂ _

/-- Upserting with `CreatePage(name, ∅, nil)` when the lookup finds page `p`: `p` is
returned unchanged, one `getPage` call is traced, the store is
untouched. -/
theorem CreatePageM_nil_present (name : String) (st : EState) (p : SPage)
    (h : lookupPage st.store name = some p) :
    CreatePageM name [] st = (.ok (some p), logCall st (.getPage name)) := by
  simp [CreatePageM, GetPageM, h]

/-- Upserting with `CreatePage(name, ∅, nil)` when the page is absent and its creation is
not made to fail: the freshly created page is returned and appended to the
store. -/
theorem CreatePageM_nil_absent (name : String) (st : EState)
    (h : lookupPage st.store name = none) (hmem : name ∉ st.store.failCreate) :
    CreatePageM name [] st =
      (.ok (some ⟨mkUUID st.store.fresh, name, []⟩),
       ⟨⟨st.store.pages ++ [⟨mkUUID st.store.fresh, name, []⟩],
         st.store.fresh + 1, st.store.failCreate, st.store.failProp⟩,
        st.calls ++ [.getPage name] ++ [.createPage name]⟩) := by
  simp [CreatePageM, GetPageM, h, callCreatePage, logCall, hmem]

/-- C3: calling `CreatePage` twice in sequence with the same name and an
empty property mapping returns the very same page both times and the
second run issues no creation call — when the lookup finds the page and
the properties are empty, the existing page is returned unchanged. -/
theorem C3_upsert_idempotent (name : String) (st : EState)
    (hfc : st.store.failCreate = []) :
    ∃ p : SPage,
      (CreatePageM name [] st).1 = .ok (some p) ∧
      (CreatePageM name [] (CreatePageM name [] st).2).1 = .ok (some p) ∧
      createCallsOf (CreatePageM name [] (CreatePageM name [] st).2).2.calls =
        createCallsOf (CreatePageM name [] st).2.calls := by
  cases h : lookupPage st.store name with
  | some p =>
      have e1 := CreatePageM_nil_present name st p h
      have h2 : lookupPage (CreatePageM name [] st).2.store name = some p := by
        rw [e1]; exact h
      have e2 := CreatePageM_nil_present name (CreatePageM name [] st).2 p h2
      refine ⟨p, by rw [e1], by rw [e2], ?_⟩
      rw [e2]
      simp [logCall, createCallsOf_append, createCallsOf]
  | none =>
      have hmem : name ∉ st.store.failCreate := by simp [hfc]
      have e1 := CreatePageM_nil_absent name st h hmem
      have h2 : lookupPage (CreatePageM name [] st).2.store name =
          some ⟨mkUUID st.store.fresh, name, []⟩ := by
        rw [e1]
        simp only [lookupPage] at h ⊢
        rw [find?_append_of_none _ _ _ h]
        simp
      have e2 := CreatePageM_nil_present name (CreatePageM name [] st).2
        ⟨mkUUID st.store.fresh, name, []⟩ h2
      refine ⟨⟨mkUUID st.store.fresh, name, []⟩, by rw [e1], by rw [e2], ?_⟩
      rw [e2]
      simp [logCall, createCallsOf_append, createCallsOf]

/-- Witness for C3 on the pristine store and name `"P"`. -/
theorem C3_upsert_idempotent_witness :
    initSt.store.failCreate = [] ∧
    ∃ p : SPage,
      (CreatePageM "P" [] initSt).1 = .ok (some p) ∧
      (CreatePageM "P" [] (CreatePageM "P" [] initSt).2).1 = .ok (some p) ∧
      createCallsOf (CreatePageM "P" [] (CreatePageM "P" [] initSt).2).2.calls =
        createCallsOf (CreatePageM "P" [] initSt).2.calls :=
  ⟨rfl, C3_upsert_idempotent "P" initSt rfl⟩

/-- The advisory reference check never changes the store. -/
theorem checkRefs_store (refs : List String) (st : EState) :
    (checkRefs refs st).store = st.store := by
  induction refs generalizing st with
  | nil => rfl
  | cons r rs ih => exact ih (logCall st (.getBlock r))

/-- Replacement via `rewriteProps` leaves a property list unchanged when no string value
contains the target. -/
theorem rewriteProps_of_noTarget (target repl : String) (props : PropList)
    (h : ∀ kv ∈ props, noTargetVal target kv.2 = true) :
    rewriteProps target repl props = props := by
  induction props with
  | nil => rfl
  | cons kv rest ih =>
      obtain ⟨k, v⟩ := kv
      have hrest := ih (fun kv hkv => h kv (List.mem_cons_of_mem _ hkv))
      cases v with
      | str s =>
          have hs : strContains s target = false := by
            have := h (k, .str s) (List.mem_cons_self _ _)
            simpa [noTargetVal] using this
          simp [rewriteProps, hs] at hrest ⊢
          exact hrest
      | num n => simpa [rewriteProps] using hrest
      | boolean b => simpa [rewriteProps] using hrest

/-- C1: synchronizing content containing the hierarchical link `[[A/B]]`
and the plain link `[[C]]` (over any property mapping that contributes no
links of its own and whose string values do not contain `[[A/B]]`)
rewrites `[[A/B]]` into the direct reference `((uu))` — where `"uu"` is
exactly the identifier the store assigned to page `"A/B"` — removes the
literal `[[A/B]]`, and preserves the non-hierarchical `[[C]]` verbatim
while still materializing page `"C"` for side effect. -/
theorem C1_synchronize_rewrites_hierarchical (props : PropList)
    (h1 : propStringLinks props = [])
    (h2 : ∀ kv ∈ props, noTargetVal "[[A/B]]" kv.2 = true) :
    (EnsureLinkedPagesM "text [[A/B]] more [[C]] end" props initSt).1.1 =
      "text ((uu)) more [[C]] end" ∧
    (EnsureLinkedPagesM "text [[A/B]] more [[C]] end" props initSt).1.2 = props ∧
    lookupPage (EnsureLinkedPagesM "text [[A/B]] more [[C]] end" props
      initSt).2.store "A/B" = some ⟨"uu", "A/B", []⟩ ∧
    lookupPage (EnsureLinkedPagesM "text [[A/B]] more [[C]] end" props
      initSt).2.store "C" = some ⟨"uuu", "C", []⟩ ∧
    strContains (EnsureLinkedPagesM "text [[A/B]] more [[C]] end" props
      initSt).1.1 "[[A/B]]" = false ∧
    strContains (EnsureLinkedPagesM "text [[A/B]] more [[C]] end" props
      initSt).1.1 "[[C]]" = true ∧
    strContains (EnsureLinkedPagesM "text [[A/B]] more [[C]] end" props
      initSt).1.1 "((uu))" = true := by
  have hT : ("[[" ++ "A/B" ++ "]]" : String) = "[[A/B]]" := rfl
  have hR : ("((" ++ "uu" ++ "))" : String) = "((uu))" := rfl
  have hw1 : walkLoop "" (splitSlashStr "A/B") initSt = ("uu", stAB) := rfl
  have p1 : processLink "A/B" ("text [[A/B]] more [[C]] end", props) initSt =
      (("text ((uu)) more [[C]] end", props), stAB) := by
    simp only [processLink, hw1]
    rw [if_pos (by decide)]
    rw [hT, hR, rewriteProps_of_noTarget _ _ props h2]
    rfl
  have hw2 : walkLoop "" (splitSlashStr "C") stAB = ("uuu", stABC) := rfl
  have p2 : processLink "C" ("text ((uu)) more [[C]] end", props) stAB =
      (("text ((uu)) more [[C]] end", props), stABC) := by
    simp only [processLink, hw2]
    rw [if_neg (by decide)]
  have hl : dedupStr (extractLinks "text [[A/B]] more [[C]] end" ++
      propStringLinks props) = ["A/B", "C"] := by
    rw [h1, List.append_nil]
    rfl
  have pls : processLinks (dedupStr (extractLinks "text [[A/B]] more [[C]] end" ++
      propStringLinks props)) ("text [[A/B]] more [[C]] end", props) initSt =
      (("text ((uu)) more [[C]] end", props), stABC) := by
    rw [hl]
    show processLinks ["C"]
      (processLink "A/B" ("text [[A/B]] more [[C]] end", props) initSt).1
      (processLink "A/B" ("text [[A/B]] more [[C]] end", props) initSt).2 =
      (("text ((uu)) more [[C]] end", props), stABC)
    rw [p1]
    show ((processLink "C" ("text ((uu)) more [[C]] end", props) stAB).1,
      (processLink "C" ("text ((uu)) more [[C]] end", props) stAB).2) =
      (("text ((uu)) more [[C]] end", props), stABC)
    rw [p2]
  have main : EnsureLinkedPagesM "text [[A/B]] more [[C]] end" props initSt =
      (("text ((uu)) more [[C]] end", props),
       checkRefs (extractBlockRefs "text ((uu)) more [[C]] end" ++
         propStringRefs props) stABC) := by
    show ((processLinks (dedupStr (extractLinks "text [[A/B]] more [[C]] end" ++
        propStringLinks props)) ("text [[A/B]] more [[C]] end", props) initSt).1,
      checkRefs (extractBlockRefs (processLinks (dedupStr
        (extractLinks "text [[A/B]] more [[C]] end" ++ propStringLinks props))
        ("text [[A/B]] more [[C]] end", props) initSt).1.1 ++
        propStringRefs (processLinks (dedupStr
        (extractLinks "text [[A/B]] more [[C]] end" ++ propStringLinks props))
        ("text [[A/B]] more [[C]] end", props) initSt).1.2)
        (processLinks (dedupStr (extractLinks "text [[A/B]] more [[C]] end" ++
        propStringLinks props)) ("text [[A/B]] more [[C]] end", props) initSt).2) =
      (("text ((uu)) more [[C]] end", props),
       checkRefs (extractBlockRefs "text ((uu)) more [[C]] end" ++
         propStringRefs props) stABC)
    rw [pls]
  rw [main]
  refine ⟨rfl, rfl, ?_, ?_, rfl, rfl, rfl⟩
  · rw [checkRefs_store]; rfl
  · rw [checkRefs_store]; rfl

/-- Witness for C1 at the concrete property mapping `{n: 7}` (a
link-free, non-string-valued mapping). -/
theorem C1_synchronize_rewrites_hierarchical_witness :
    propStringLinks [("n", Val.num 7)] = [] ∧
    (∀ kv ∈ ([("n", Val.num 7)] : PropList),
      noTargetVal "[[A/B]]" kv.2 = true) ∧
    (EnsureLinkedPagesM "text [[A/B]] more [[C]] end" [("n", Val.num 7)]
      initSt).1.1 = "text ((uu)) more [[C]] end" ∧
    strContains (EnsureLinkedPagesM "text [[A/B]] more [[C]] end"
      [("n", Val.num 7)] initSt).1.1 "[[C]]" = true :=
  ⟨rfl, by decide,
   (C1_synchronize_rewrites_hierarchical [("n", Val.num 7)] rfl (by decide)).1,
   (C1_synchronize_rewrites_hierarchical [("n", Val.num 7)] rfl
     (by decide)).2.2.2.2.2.1⟩

/-- A string of positive length is not empty. -/
theorem ne_empty_of_length_pos (s : String) (h : 0 < s.length) : s ≠ "" := by
  intro he
  rw [he] at h
  exact absurd h (by decide)

/-- Joining with `joinPath` produces a non-empty path when either input is
non-empty. -/
theorem joinPath_ne_empty (cur part : String) (h : cur ≠ "" ∨ part ≠ "") :
    joinPath cur part ≠ "" := by
  unfold joinPath
  by_cases hc : cur = ""
  · rw [if_pos hc]
    rcases h with h | h
    · exact absurd hc h
    · exact h
  · rw [if_neg hc]
    apply ne_empty_of_length_pos
    rw [String.length_append, String.length_append]
    have : 0 < cur.length := by
      by_contra hn
      exact hc (by
        cases hs : cur.length with
        | zero =>
            cases cur with
            | mk l => cases l with
              | nil => rfl
              | cons a t => exact absurd hs (by simp [String.length])
        | succ n => omega)
    omega

/-- Every path in `ancestorPaths c ps` (for non-empty `c`) extends `c` by
`"/"` and a suffix. -/
theorem mem_ancestorPaths_shape (ps : List String) :
    ∀ (c : String), c ≠ "" → ∀ q ∈ ancestorPaths c ps,
      ∃ s : String, q = c ++ "/" ++ s := by
  induction ps with
  | nil => intro c _ q hq; exact absurd hq (by simp [ancestorPaths])
  | cons p ps ih =>
      intro c hc q hq
      have hjoin : joinPath c p = c ++ "/" ++ p := if_neg hc
      simp only [ancestorPaths, hjoin, List.mem_cons] at hq
      rcases hq with hq | hq
      · exact ⟨p, hq⟩
      · have hne : c ++ "/" ++ p ≠ "" := by
          apply ne_empty_of_length_pos
          rw [String.length_append, String.length_append]
          have h1 : ("/" : String).length = 1 := rfl
          omega
        obtain ⟨s, hs⟩ := ih (c ++ "/" ++ p) hne q hq
        exact ⟨p ++ "/" ++ s, by rw [hs]; simp [String.append_assoc]⟩

/-- A path strictly below `c` is longer than `c`. -/
theorem mem_ancestorPaths_length (ps : List String) (c : String) (hc : c ≠ "")
    (q : String) (hq : q ∈ ancestorPaths c ps) : c.length < q.length := by
  obtain ⟨s, hs⟩ := mem_ancestorPaths_shape ps c hc q hq
  rw [hs, String.length_append, String.length_append]
  have : ("/" : String).length = 1 := rfl
  omega

/-- A path strictly below `c` contains a slash. -/
theorem mem_ancestorPaths_slash (ps : List String) (c : String) (hc : c ≠ "")
    (q : String) (hq : q ∈ ancestorPaths c ps) : '/' ∈ q.data := by
  obtain ⟨s, hs⟩ := mem_ancestorPaths_shape ps c hc q hq
  rw [hs, String.data_append, String.data_append]
  have : ("/" : String).data = ['/'] := rfl
  simp [this]

/-- Generated identifiers contain no slash. -/
theorem slash_not_mem_mkUUID (n : Nat) : '/' ∉ (mkUUID n).data := by
  intro h
  have : ('/' : Char) = 'u' := (List.mem_replicate.mp h).2
  exact absurd this (by decide)

/-- Prefix accumulation `ancestorPaths` has one path per segment. -/
theorem ancestorPaths_length (ps : List String) :
    ∀ c, (ancestorPaths c ps).length = ps.length := by
  induction ps with
  | nil => intro c; rfl
  | cons p ps ih => intro c; simp [ancestorPaths, ih]

/-- One step of the namespace walk on an absent, creatable path. -/
theorem walkLoop_cons_absent (cur p : String) (rest : List String) (st : EState)
    (h : lookupPage st.store (joinPath cur p) = none)
    (hmem : joinPath cur p ∉ st.store.failCreate) :
    walkLoop cur (p :: rest) st =
      if rest.isEmpty then
        (mkUUID st.store.fresh, afterCreate (joinPath cur p) st)
      else walkLoop (joinPath cur p) rest (afterCreate (joinPath cur p) st) := by
  simp only [walkLoop, GetPageM, createPageNil, callCreatePage, logCall, h,
    afterCreate, hmem, if_false, reduceIte]

/-- The namespace walk over segments whose accumulated prefixes are all
absent from a store with no injected creation failures: every prefix is
created (appended in ascending depth order with consecutive fresh
identifiers), the `createPage` calls are exactly the prefixes in ascending
depth order, and the walk returns the identifier minted for the deepest
prefix. -/
theorem walkLoop_fresh (parts : List String) :
    ∀ (cur : String) (st : EState),
      "" ∉ parts →
      (∀ q ∈ ancestorPaths cur parts, lookupPage st.store q = none) →
      st.store.failCreate = [] →
      (walkLoop cur parts st).2.store.pages =
          st.store.pages ++ freshPages st.store.fresh (ancestorPaths cur parts) ∧
      (walkLoop cur parts st).2.store.fresh = st.store.fresh + parts.length ∧
      (walkLoop cur parts st).2.store.failCreate = st.store.failCreate ∧
      (walkLoop cur parts st).2.store.failProp = st.store.failProp ∧
      createCallsOf (walkLoop cur parts st).2.calls =
          createCallsOf st.calls ++ ancestorPaths cur parts ∧
      (parts ≠ [] → (walkLoop cur parts st).1 =
          mkUUID (st.store.fresh + parts.length - 1)) := by
  induction parts with
  | nil =>
      intro cur st _ _ _
      refine ⟨?_, rfl, rfl, rfl, ?_, fun h => absurd rfl h⟩
      · simp [walkLoop, ancestorPaths, freshPages]
      · simp [walkLoop, ancestorPaths]
  | cons p rest ih =>
      intro cur st hps habs hfc
      have hpne : p ≠ "" := by
        intro h
        exact hps (h ▸ List.mem_cons_self p rest)
      have hpathne : joinPath cur p ≠ "" := joinPath_ne_empty cur p (Or.inr hpne)
      have hq0 : lookupPage st.store (joinPath cur p) = none :=
        habs (joinPath cur p) (by simp [ancestorPaths])
      have hmem : joinPath cur p ∉ st.store.failCreate := by rw [hfc]; simp
      have hstep := walkLoop_cons_absent cur p rest st hq0 hmem
      have hanc : ancestorPaths cur (p :: rest) =
          joinPath cur p :: ancestorPaths (joinPath cur p) rest := rfl
      cases rest with
      | nil =>
          rw [hstep]
          refine ⟨?_, ?_, rfl, rfl, ?_, fun _ => ?_⟩
          · simp [afterCreate, ancestorPaths, freshPages]
          · simp [afterCreate]
          · simp [afterCreate, createCallsOf_append, createCallsOf, ancestorPaths]
          · simp [afterCreate]
      | cons r rs =>
          rw [hstep]
          simp only [List.isEmpty_cons, if_false, Bool.false_eq_true, reduceIte]
          have hps' : "" ∉ r :: rs := by
            intro h
            exact hps (List.mem_cons_of_mem p h)
          have hfc' : (afterCreate (joinPath cur p) st).store.failCreate = [] := by
            simp [afterCreate, hfc]
          have habs' : ∀ q ∈ ancestorPaths (joinPath cur p) (r :: rs),
              lookupPage (afterCreate (joinPath cur p) st).store q = none := by
            intro q hq
            have habsq : lookupPage st.store q = none :=
              habs q (by rw [hanc]; exact List.mem_cons_of_mem _ hq)
            have hlen := mem_ancestorPaths_length (r :: rs) (joinPath cur p)
              hpathne q hq
            have hslash := mem_ancestorPaths_slash (r :: rs) (joinPath cur p)
              hpathne q hq
            have hname : ((⟨mkUUID st.store.fresh, joinPath cur p, []⟩ : SPage).name
                == q || (⟨mkUUID st.store.fresh, joinPath cur p, []⟩ : SPage).uuid
                == q) = false := by
              have h1 : joinPath cur p ≠ q := by
                intro h
                rw [h] at hlen
                omega
              have h2 : mkUUID st.store.fresh ≠ q := by
                intro h
                exact slash_not_mem_mkUUID st.store.fresh (h ▸ hslash)
              simp [h1, h2]
            simp only [lookupPage, afterCreate] at habsq ⊢
            rw [find?_append_of_none _ _ _ habsq]
            simp only [List.find?_cons, hname]
            rfl
          obtain ⟨ih1, ih2, ih3, ih4, ih5, ih6⟩ :=
            ih (joinPath cur p) (afterCreate (joinPath cur p) st) hps' habs' hfc'
          refine ⟨?_, ?_, ?_, ?_, ?_, fun _ => ?_⟩
          · rw [ih1, hanc]
            simp only [afterCreate, freshPages]
            rw [List.append_assoc]
            rfl
          · rw [ih2]
            simp only [afterCreate, List.length_cons]
            omega
          · rw [ih3]; simp [afterCreate]
          · rw [ih4]; simp [afterCreate]
          · rw [ih5, hanc]
            simp only [afterCreate]
            rw [createCallsOf_append, createCallsOf_append, createCallsOf_append]
            simp [createCallsOf]
          · rw [ih6 (by simp)]
            simp only [afterCreate, List.length_cons]
            congr 1
            omega

/-- Taking `getLastD` of a non-empty list ignores the default. -/
theorem getLastD_irrel {α : Type} (l : List α) (h : l ≠ []) (d₁ d₂ : α) :
    l.getLastD d₁ = l.getLastD d₂ := by
  cases l with
  | nil => exact absurd rfl h
  | cons a t => rfl

/-- Every name in `qs` names a page of `freshPages n qs`. -/
theorem freshPages_mem_name (qs : List String) :
    ∀ (n : Nat) (q : String), q ∈ qs →
      ∃ pg ∈ freshPages n qs, pg.name = q := by
  induction qs with
  | nil => intro n q hq; exact absurd hq (by simp)
  | cons x qs ih =>
      intro n q hq
      rcases List.mem_cons.mp hq with h | h
      · exact ⟨⟨mkUUID n, x, []⟩, List.mem_cons_self _ _, h.symm⟩
      · obtain ⟨pg, hpg, hname⟩ := ih (n + 1) q h
        exact ⟨pg, List.mem_cons_of_mem _ hpg, hname⟩

/-- The page created for the last name of `qs` carries the last minted
identifier. -/
theorem freshPages_last (qs : List String) :
    ∀ n : Nat, qs ≠ [] →
      (⟨mkUUID (n + qs.length - 1), qs.getLastD "", []⟩ : SPage) ∈
        freshPages n qs := by
  induction qs with
  | nil => intro n h; exact absurd rfl h
  | cons q qs ih =>
      intro n _
      cases qs with
      | nil =>
          have e : n + 1 - 1 = n := rfl
          simp [freshPages, List.getLastD, e]
      | cons r rs =>
          have hmem := ih (n + 1) (by simp)
          have e1 : (q :: r :: rs).getLastD "" = (r :: rs).getLastD "" :=
            getLastD_irrel (r :: rs) (by simp) q ""
          have e2 : n + (q :: r :: rs).length - 1 = n + 1 + (r :: rs).length - 1 := by
            simp only [List.length_cons]
            omega
          rw [show (⟨mkUUID (n + (q :: r :: rs).length - 1),
              (q :: r :: rs).getLastD "", []⟩ : SPage) =
              ⟨mkUUID (n + 1 + (r :: rs).length - 1), (r :: rs).getLastD "", []⟩
            from by rw [e1, e2]]
          exact List.mem_cons_of_mem _ hmem

/-- C2: the namespace materializer splits a hierarchical name into
segments and walks them left to right, accumulating prefix paths; on a
store where all prefixes are absent (and creation is not made to fail),
afterwards every one of the N accumulated prefixes resolves, the
`createPage` calls are exactly the prefixes in ascending depth order, and
the returned identifier is the one of the deepest (leaf) prefix; moreover
(concretely, on `abFailSt`) a failure creating the intermediate level
`"A/B"` is non-fatal: the walk continues and still creates and returns the
leaf `"A/B/C"`. -/
theorem C2_materialize_namespace :
    (∀ (parts : List String) (st : EState),
      parts ≠ [] → "" ∉ parts →
      (∀ q ∈ ancestorPaths "" parts, lookupPage st.store q = none) →
      st.store.failCreate = [] →
      (∀ q ∈ ancestorPaths "" parts,
        (lookupPage (walkLoop "" parts st).2.store q).isSome = true) ∧
      createCallsOf (walkLoop "" parts st).2.calls =
        createCallsOf st.calls ++ ancestorPaths "" parts ∧
      (∃ pg ∈ (walkLoop "" parts st).2.store.pages,
        pg.name = (ancestorPaths "" parts).getLastD "" ∧
        (walkLoop "" parts st).1 = pg.uuid)) ∧
    ((walkLoop "" ["A", "B", "C"] abFailSt).1 = "uu" ∧
     (walkLoop "" ["A", "B", "C"] abFailSt).2.store.pages =
       [⟨"u", "A", []⟩, ⟨"uu", "A/B/C", []⟩]) := by
  constructor
  · intro parts st hne hps habs hfc
    obtain ⟨h1, _, _, _, h5, h6⟩ := walkLoop_fresh parts "" st hps habs hfc
    have hanc_ne : ancestorPaths "" parts ≠ [] := by
      cases parts with
      | nil => exact absurd rfl hne
      | cons p ps => simp [ancestorPaths]
    refine ⟨?_, h5, ?_⟩
    · intro q hq
      obtain ⟨pg, hpg, hname⟩ :=
        freshPages_mem_name (ancestorPaths "" parts) st.store.fresh q hq
      simp only [lookupPage]
      rw [h1]
      apply List.find?_isSome.mpr
      refine ⟨pg, List.mem_append_right _ hpg, ?_⟩
      simp [hname]
    · refine ⟨⟨mkUUID (st.store.fresh + parts.length - 1),
        (ancestorPaths "" parts).getLastD "", []⟩, ?_, rfl, ?_⟩
      · rw [h1]
        apply List.mem_append_right
        have := freshPages_last (ancestorPaths "" parts) st.store.fresh hanc_ne
        rwa [ancestorPaths_length parts ""] at this
      · exact h6 hne
  · exact ⟨rfl, rfl⟩

/-- Witness for C2 on the depth-2 name `"A/B"` over the pristine store:
both hypotheses hold and all conclusions are obtained from the theorem. -/
theorem C2_materialize_namespace_witness :
    ((["A", "B"] : List String) ≠ [] ∧ "" ∉ (["A", "B"] : List String) ∧
      (∀ q ∈ ancestorPaths "" ["A", "B"], lookupPage initSt.store q = none) ∧
      initSt.store.failCreate = []) ∧
    ((∀ q ∈ ancestorPaths "" ["A", "B"],
        (lookupPage (walkLoop "" ["A", "B"] initSt).2.store q).isSome = true) ∧
      createCallsOf (walkLoop "" ["A", "B"] initSt).2.calls =
        createCallsOf initSt.calls ++ ancestorPaths "" ["A", "B"] ∧
      (∃ pg ∈ (walkLoop "" ["A", "B"] initSt).2.store.pages,
        pg.name = (ancestorPaths "" ["A", "B"]).getLastD "" ∧
        (walkLoop "" ["A", "B"] initSt).1 = pg.uuid)) :=
  ⟨⟨by decide, by decide, by decide, rfl⟩,
   C2_materialize_namespace.1 ["A", "B"] initSt (by decide) (by decide)
     (by decide) rfl⟩

end Yalms
